import Mathlib

/-!
Shallow embedding of the tslint rule implemented in
src/maxFuncBodyLengthRule.ts (class MaxFunctionBodyLengthRuleWalker),
together with theorems settling the frozen claims about it.

Modelling conventions:
  * TypeScript numbers that hold line counts and configured thresholds are
    modelled as Int (the rule only ever produces integers there);
    a possibly-undefined number is Option Int, with none playing the role
    of the JavaScript value undefined.
  * AST nodes are modelled by the inductive Node below; each node carries a
    numeric identity (nodeId) standing for JavaScript object identity, which
    the source rule relies on through Utils.contains / Utils.removeAll.
  * Fallible code (throw) is modelled with Except String.
-/

namespace MaxFuncBodyLengthRule

/-- The ts.SyntaxKind values the rule discriminates on (every other kind is
collapsed into otherKind, since the rule treats them all alike). -/
inductive NodeKind : Type where
  | functionDeclaration : NodeKind
  | methodDeclaration : NodeKind
  | arrowFunction : NodeKind
  | ctor : NodeKind
  | classDeclaration : NodeKind
  | callExpression : NodeKind
  | otherKind : NodeKind
deriving DecidableEq, Repr

/-- A source range: node.body.pos and node.body.end offsets into the source
text. The field endPos models the TypeScript field named end. -/
structure Span : Type where
  pos : Nat
  endPos : Nat
deriving DecidableEq, Repr

mutual
/-- The AST fragment the walker observes.  Each constructor carries the node
identity first.  callExpr stores the result of AstUtils.getFunctionName as
functionName (modelled from the spec: AstUtils.getFunctionName is not under
src/; per the spec it extracts the callee's trailing identifier text), the
children that precede the argument list (the callee expression etc.) and the
argument expressions.  Function-like nodes store the optional name node text
(none models an absent name node) and the optional body range (none models
an absent body, e.g. an ambient or abstract signature). -/
inductive Node : Type where
  | callExpr (id : Nat) (functionName : String) (others : NodeList) (args : NodeList) : Node
  | arrowFunction (id : Nat) (body : Option Span) (children : NodeList) : Node
  | methodDeclaration (id : Nat) (name : Option String) (body : Option Span) (children : NodeList) : Node
  | functionDeclaration (id : Nat) (name : Option String) (body : Option Span) (children : NodeList) : Node
  | constructorDeclaration (id : Nat) (body : Option Span) (children : NodeList) : Node
  | classDeclaration (id : Nat) (name : Option String) (children : NodeList) : Node
  | otherNode (id : Nat) (children : NodeList) : Node

/-- Lists of sibling nodes, mutually inductive with Node so that the walker
can be defined by structural recursion. -/
inductive NodeList : Type where
  | nil : NodeList
  | cons (head : Node) (tail : NodeList) : NodeList
end

/-- The node identity (stands for JavaScript reference identity). -/
def Node.nodeId : Node → Nat
  | .callExpr i _ _ _ => i
  | .arrowFunction i _ _ => i
  | .methodDeclaration i _ _ _ => i
  | .functionDeclaration i _ _ _ => i
  | .constructorDeclaration i _ _ => i
  | .classDeclaration i _ _ => i
  | .otherNode i _ => i

/-- The identities of the top-level elements of a node list (used for the
argument list of a call expression). -/
def argIdsOf : NodeList → List Nat
  | .nil => []
  | .cons h t => h.nodeId :: argIdsOf t

/-- How JavaScript prints a possibly-undefined number inside a template
literal. -/
def jsNumText : Option Int → String
  | none => "undefined"
  | some v => toString v

/-- How JavaScript prints a possibly-undefined string inside a template
literal. -/
def jsStrText : Option String → String
  | none => "undefined"
  | some s => s

/-- JavaScript a || b on a possibly-undefined number: undefined and 0 are
falsy, so they select the fallback. -/
def jsOr : Option Int → Option Int → Option Int
  | none, fb => fb
  | some v, fb => if v = 0 then fb else some v

/-- Modelled from the spec: Utils.removeAll (not under src/) removes from the
first list every element of the second, comparing by node identity
(set-difference semantics, removing all occurrences). -/
def removeAll (l : List Nat) (rm : List Nat) : List Nat :=
  l.filter (fun x => !(rm.contains x))

/-- The configuration fields of MaxFunctionBodyLengthRuleWalker after
parseOptions, plus the source text needed by getLineAndCharacterOfPosition.
A compiled RegExp is modelled by its matching predicate on strings. -/
structure WalkerConfig : Type where
  maxBodyLength : Option Int
  maxFuncBodyLength : Option Int
  maxArrowBodyLength : Option Int
  maxMethodBodyLength : Option Int
  maxCtorBodyLength : Option Int
  ignoreParametersToFunctionRegex : Option (String → Bool)
  sourceText : List Char

/-- The mutable traversal state of the walker: currentClassName,
ignoreNodes (kept as node identities) and the failures recorded so far,
each failure as (node identity, message). -/
structure WalkerState : Type where
  currentClassName : Option String
  ignoreNodes : List Nat
  failures : List (Nat × String)
deriving DecidableEq

/-- The 0-indexed line of a source offset, as produced by
ts.SourceFile.getLineAndCharacterOfPosition: the number of line breaks
strictly before the offset. -/
def lineOf (text : List Char) (pos : Nat) : Nat :=
  ((text.take pos).filter (fun c => c = '\n')).length

/-- calcBodyLength: 0 when the node has no body, otherwise the line of the
body's end minus the line of the body's start. -/
def calcBodyLength (text : List Char) : Option Span → Int
  | none => 0
  | some b => (lineOf text b.endPos : Int) - (lineOf text b.pos : Int)

/-- getFuncTypeText: the kind label, throwing on unsupported kinds. -/
def getFuncTypeText : NodeKind → Except String String
  | .functionDeclaration => .ok "function"
  | .methodDeclaration => .ok "method"
  | .arrowFunction => .ok "arrow function"
  | .ctor => .ok "constructor"
  | _ => .error "Unsupported node kind"

/-- getMaxLength: the per-kind configured maximum, with JavaScript || falling
back to the single numeric maximum; throws on unsupported kinds. -/
def getMaxLength (cfg : WalkerConfig) : NodeKind → Except String (Option Int)
  | .functionDeclaration => .ok (jsOr cfg.maxFuncBodyLength cfg.maxBodyLength)
  | .methodDeclaration => .ok (jsOr cfg.maxMethodBodyLength cfg.maxBodyLength)
  | .arrowFunction => .ok (jsOr cfg.maxArrowBodyLength cfg.maxBodyLength)
  | .ctor => .ok (jsOr cfg.maxCtorBodyLength cfg.maxBodyLength)
  | _ => .error "Unsupported node kind"

/-- isFunctionTooLong: length > max, where the JavaScript comparison
length > undefined is false. -/
def isFunctionTooLong (cfg : WalkerConfig) (nodeKind : NodeKind) (length : Int) :
    Except String Bool :=
  match getMaxLength cfg nodeKind with
  | .error e => .error e
  | .ok none => .ok false
  | .ok (some m) => .ok (decide (m < length))

/-- formatPlaceText: the place clause of a failure message.  Reading the
text of an absent name node throws a TypeError, as in JavaScript. -/
def formatPlaceText (st : WalkerState) (nodeKind : NodeKind) (name : Option String) :
    Except String String :=
  match getFuncTypeText nodeKind with
  | .error e => .error e
  | .ok funcTypeText =>
    if nodeKind = .methodDeclaration ∨ nodeKind = .functionDeclaration then
      match name with
      | some t => .ok (" in " ++ funcTypeText ++ " " ++ t ++ "()")
      | none => .error "TypeError: cannot read text of undefined"
    else if nodeKind = .ctor then
      .ok (" in class " ++ jsStrText st.currentClassName)
    else
      .ok ""

/-- formatFailureText: the full failure message. -/
def formatFailureText (cfg : WalkerConfig) (st : WalkerState) (nodeKind : NodeKind)
    (name : Option String) (length : Int) : Except String String :=
  match getFuncTypeText nodeKind with
  | .error e => .error e
  | .ok funcTypeText =>
    match getMaxLength cfg nodeKind with
    | .error e => .error e
    | .ok maxLength =>
      match formatPlaceText st nodeKind name with
      | .error e => .error e
      | .ok placeText =>
        .ok ("Max " ++ funcTypeText ++ " body length exceeded" ++ placeText ++
             " - max: " ++ jsNumText maxLength ++ ", actual: " ++ toString length)

/-- validate: skip nodes held in ignoreNodes (Utils.contains, by identity),
otherwise compute the body length and record a failure when the node is too
long.  The failure is recorded against the node's identity, standing for the
source anchoring at node.getStart()/node.getWidth(). -/
def validate (cfg : WalkerConfig) (st : WalkerState) (id : Nat) (nodeKind : NodeKind)
    (name : Option String) (body : Option Span) : Except String WalkerState :=
  if st.ignoreNodes.contains id then
    .ok st
  else
    match isFunctionTooLong cfg nodeKind (calcBodyLength cfg.sourceText body) with
    | .error e => .error e
    | .ok false => .ok st
    | .ok true =>
      match formatFailureText cfg st nodeKind name (calcBodyLength cfg.sourceText body) with
      | .error e => .error e
      | .ok msg => .ok { st with failures := st.failures ++ [(id, msg)] }

mutual
/-- The walker's traversal: the visit methods of
MaxFunctionBodyLengthRuleWalker, dispatched on the node's kind; every visit
descends into the children afterwards (super.visitX). -/
def walk (cfg : WalkerConfig) : Node → WalkerState → Except String WalkerState
  | .callExpr _ functionName others args, st =>
    match cfg.ignoreParametersToFunctionRegex with
    | some regex =>
      if regex functionName then
        match walkList cfg others { st with ignoreNodes := st.ignoreNodes ++ argIdsOf args } with
        | .error e => .error e
        | .ok st1 =>
          match walkList cfg args st1 with
          | .error e => .error e
          | .ok st2 => .ok { st2 with ignoreNodes := removeAll st2.ignoreNodes (argIdsOf args) }
      else
        match walkList cfg others st with
        | .error e => .error e
        | .ok st1 => walkList cfg args st1
    | none =>
      match walkList cfg others st with
      | .error e => .error e
      | .ok st1 => walkList cfg args st1
  | .arrowFunction id body children, st =>
    match validate cfg st id .arrowFunction none body with
    | .error e => .error e
    | .ok st1 => walkList cfg children st1
  | .methodDeclaration id name body children, st =>
    match validate cfg st id .methodDeclaration name body with
    | .error e => .error e
    | .ok st1 => walkList cfg children st1
  | .functionDeclaration id name body children, st =>
    match validate cfg st id .functionDeclaration name body with
    | .error e => .error e
    | .ok st1 => walkList cfg children st1
  | .constructorDeclaration id body children, st =>
    match validate cfg st id .ctor none body with
    | .error e => .error e
    | .ok st1 => walkList cfg children st1
  | .classDeclaration _ name children, st =>
    match name with
    | none => .error "TypeError: cannot read text of undefined"
    | some t =>
      match walkList cfg children { st with currentClassName := some t } with
      | .error e => .error e
      | .ok st1 => .ok { st1 with currentClassName := none }
  | .otherNode _ children, st => walkList cfg children st

/-- Traversal of a list of sibling nodes, threading the state left to
right. -/
def walkList (cfg : WalkerConfig) : NodeList → WalkerState → Except String WalkerState
  | .nil, st => .ok st
  | .cons n rest, st =>
    match walk cfg n st with
    | .error e => .error e
    | .ok st1 => walkList cfg rest st1
end

mutual
/-- All node identities occurring in a subtree, own identity first. -/
def idsOf : Node → List Nat
  | .callExpr i _ others args => i :: (idsOfList others ++ idsOfList args)
  | .arrowFunction i _ children => i :: idsOfList children
  | .methodDeclaration i _ _ children => i :: idsOfList children
  | .functionDeclaration i _ _ children => i :: idsOfList children
  | .constructorDeclaration i _ children => i :: idsOfList children
  | .classDeclaration i _ children => i :: idsOfList children
  | .otherNode i children => i :: idsOfList children

/-- All node identities occurring in a list of subtrees. -/
def idsOfList : NodeList → List Nat
  | .nil => []
  | .cons h t => idsOf h ++ idsOfList t
end

mutual
/-- The node identities that the walker ever passes to removeAll while
traversing a subtree: the argument identities of every call expression in the
subtree whose callee name matches the configured pattern. -/
def removalIds (m : Option (String → Bool)) : Node → List Nat
  | .callExpr _ functionName others args =>
    (match m with
     | some regex => if regex functionName then argIdsOf args else []
     | none => []) ++ (removalIdsList m others ++ removalIdsList m args)
  | .arrowFunction _ _ children => removalIdsList m children
  | .methodDeclaration _ _ _ children => removalIdsList m children
  | .functionDeclaration _ _ _ children => removalIdsList m children
  | .constructorDeclaration _ _ children => removalIdsList m children
  | .classDeclaration _ _ children => removalIdsList m children
  | .otherNode _ children => removalIdsList m children

/-- removalIds over a list of subtrees. -/
def removalIdsList (m : Option (String → Bool)) : NodeList → List Nat
  | .nil => []
  | .cons h t => removalIds m h ++ removalIdsList m t
end

/-- One entry of the rule's options array: a bare number, an object with the
four per-kind keys and the optional suppression-pattern string (a key absent
from the object is none, i.e. reads as undefined), or any other value, which
parseOptions ignores. -/
inductive OptionEntry : Type where
  | num (n : Int) : OptionEntry
  | obj (funcBodyLength : Option Int) (arrowBodyLength : Option Int)
      (methodBodyLength : Option Int) (ctorBodyLength : Option Int)
      (ignoreParametersToFunctionRegex : Option String) : OptionEntry
  | otherEntry : OptionEntry
deriving DecidableEq

/-- One iteration of the forEach in parseOptions: a number sets the fallback
maximum, an object unconditionally overwrites the four per-kind maxima and,
when its pattern string is truthy, compiles it (new RegExp may throw, which
compileRegex models by returning none). -/
def applyOption (compileRegex : String → Option (String → Bool))
    (cfg : WalkerConfig) : OptionEntry → Except String WalkerConfig
  | .num n => .ok { cfg with maxBodyLength := some n }
  | .obj f a m c r =>
    let cfg1 := { cfg with maxFuncBodyLength := f, maxArrowBodyLength := a,
                           maxMethodBodyLength := m, maxCtorBodyLength := c }
    match r with
    | some s =>
      if s = "" then .ok cfg1
      else
        match compileRegex s with
        | some regex => .ok { cfg1 with ignoreParametersToFunctionRegex := some regex }
        | none => .error ("SyntaxError: Invalid regular expression: " ++ s)
    | none => .ok cfg1
  | .otherEntry => .ok cfg

/-- The forEach loop of parseOptions over the remaining entries. -/
def parseOptionsGo (compileRegex : String → Option (String → Bool)) :
    WalkerConfig → List OptionEntry → Except String WalkerConfig
  | cfg, [] => .ok cfg
  | cfg, o :: rest =>
    match applyOption compileRegex cfg o with
    | .error e => .error e
    | .ok cfg1 => parseOptionsGo compileRegex cfg1 rest

/-- parseOptions: fold the option entries in order over the walker's initial
configuration (every field undefined). -/
def parseOptions (compileRegex : String → Option (String → Bool))
    (sourceText : List Char) (options : List OptionEntry) : Except String WalkerConfig :=
  parseOptionsGo compileRegex ⟨none, none, none, none, none, none, sourceText⟩ options

/-- The walker's initial traversal state. -/
def initState : WalkerState := ⟨none, [], []⟩

/-- Rule.apply: construct the walker (running parseOptions, which may throw),
walk the source file's tree, and return the recorded failures. -/
def runRule (compileRegex : String → Option (String → Bool)) (sourceText : List Char)
    (options : List OptionEntry) (tree : Node) : Except String (List (Nat × String)) :=
  match parseOptions compileRegex sourceText options with
  | .error e => .error e
  | .ok cfg =>
    match walk cfg tree initState with
    | .error e => .error e
    | .ok st => .ok st.failures

/-! ### Concrete inputs used by counterexamples and witnesses -/

/-- A model RegExp compiler under which a pattern matches exactly its own
text (the concrete behavior of the matcher is irrelevant to the theorems; it
only has to match the callee names used in the concrete trees, as the real
RegExp "describe" matches the callee name "describe"). -/
def compileLit : String → Option (String → Bool) :=
  fun r => some (fun s => s == r)

/-- A model RegExp compiler on which every pattern fails to compile (models
a malformed pattern handed to new RegExp). -/
def compileNone : String → Option (String → Bool) :=
  fun _ => none

/-- A source text of eight line breaks, giving offsets 0..8 the lines 0..8. -/
def srcNL : List Char := List.replicate 8 '\n'

/-- Suppression counterexample: describe(arrow; the arrow's body holding a
nested function declaration inner spanning five line breaks). -/
def c1Tree : Node :=
  .callExpr 1 "describe" .nil
    (.cons (.arrowFunction 2 (some ⟨0, 5⟩)
      (.cons (.functionDeclaration 3 (some "inner") (some ⟨0, 5⟩) .nil) .nil)) .nil)

/-- Options for the suppression counterexample: fallback maximum 1 and the
pattern "describe". -/
def c1Options : List OptionEntry :=
  [.num 1, .obj none none none none (some "describe")]

/-- Class-name counterexample: class Outer whose first member is a method m
(one-line body) holding a nested class declaration Inner, followed by a
constructor spanning five line breaks. -/
def c2Tree : Node :=
  .classDeclaration 10 (some "Outer")
    (.cons (.methodDeclaration 11 (some "m") (some ⟨0, 0⟩)
      (.cons (.classDeclaration 12 (some "Inner") .nil) .nil))
    (.cons (.constructorDeclaration 13 (some ⟨0, 5⟩) .nil) .nil))

/-- No-body counterexample: a function declaration f with no body, under the
configured fallback maximum -1. -/
def c5Tree : Node := .functionDeclaration 21 (some "f") none .nil

/-- The four node kinds for which validation is defined. -/
def supportedKind (k : NodeKind) : Prop :=
  k = .functionDeclaration ∨ k = .methodDeclaration ∨ k = .arrowFunction ∨ k = .ctor

instance (k : NodeKind) : Decidable (supportedKind k) := by
  unfold supportedKind
  infer_instance

/-- Threshold resolution written from the spec's words, for comparison with
getMaxLength: pick the per-kind configured maximum if set and
non-zero/non-falsy; otherwise fall back to the single numeric default; a kind
with neither yields an undefined comparison threshold. -/
def resolvedThresholdSpec (cfg : WalkerConfig) (k : NodeKind) : Option Int :=
  let perKind : Option Int :=
    match k with
    | .functionDeclaration => cfg.maxFuncBodyLength
    | .methodDeclaration => cfg.maxMethodBodyLength
    | .arrowFunction => cfg.maxArrowBodyLength
    | .ctor => cfg.maxCtorBodyLength
    | _ => none
  match perKind with
  | some v => if v ≠ 0 then some v else cfg.maxBodyLength
  | none => cfg.maxBodyLength

/-- The shape every recorded violation message must have: a defined printed
maximum and a printed actual strictly above it. -/
def goodFailureMessage (msg : String) : Prop :=
  ∃ (t p : String) (m len : Int),
    msg = "Max " ++ t ++ " body length exceeded" ++ p ++ " - max: " ++
      toString m ++ ", actual: " ++ toString len ∧ m < len

/-- An empty configuration (every option undefined, empty source). -/
def cfgEmpty : WalkerConfig := ⟨none, none, none, none, none, none, []⟩

/-- A configuration with only method-body-length set to 3, over the line
break source. -/
def cfgMethod3 : WalkerConfig := ⟨none, none, none, some 3, none, none, srcNL⟩

/-- A configuration with only the fallback maximum set to 2. -/
def cfgFallback2 : WalkerConfig := ⟨some 2, none, none, none, none, none, srcNL⟩

/-- Concrete source text for the body-length witness: two characters, a line
break, two characters. -/
def c4Text : List Char := ['a', 'b', '\n', 'c', 'd']

/-- Witness inputs for the class-name behavior: a class K whose only member
is a constructor spanning five line breaks. -/
def c2WitnessTree : Node :=
  .classDeclaration 30 (some "K")
    (.cons (.constructorDeclaration 31 (some ⟨0, 5⟩) .nil) .nil)

/-- The identities of every node strictly inside a node (its children's
subtrees), so that idsOf n = n.nodeId :: childIds n. -/
def childIds : Node → List Nat
  | .callExpr _ _ others args => idsOfList others ++ idsOfList args
  | .arrowFunction _ _ children => idsOfList children
  | .methodDeclaration _ _ _ children => idsOfList children
  | .functionDeclaration _ _ _ children => idsOfList children
  | .constructorDeclaration _ _ children => idsOfList children
  | .classDeclaration _ _ children => idsOfList children
  | .otherNode _ children => idsOfList children

/-- The concrete matcher produced by compileLit for the pattern
"describe". -/
def describeMatcher : String → Bool := fun s => s == "describe"

/-- The configuration the walker holds after parsing c1Options. -/
def cfgC1 : WalkerConfig :=
  ⟨some 1, none, none, none, none, some describeMatcher, srcNL⟩

/-- The suppression bookkeeping invariant for walking one node: starting
from a duplicate-free subtree whose removal identities are not already
suppressed, the walk restores ignoreNodes exactly, and every newly recorded
failure is for a node inside the subtree that was not suppressed when the
walk started. -/
def NodeInv (cfg : WalkerConfig) (n : Node) : Prop :=
  ∀ (st st1 : WalkerState), (idsOf n).Nodup →
    (∀ x ∈ st.ignoreNodes, x ∉ removalIds cfg.ignoreParametersToFunctionRegex n) →
    walk cfg n st = .ok st1 →
    st1.ignoreNodes = st.ignoreNodes ∧
    ∀ p ∈ st1.failures, p ∈ st.failures ∨ (p.1 ∈ idsOf n ∧ p.1 ∉ st.ignoreNodes)

/-- NodeInv for walking a list of sibling subtrees. -/
def ListInv (cfg : WalkerConfig) (ns : NodeList) : Prop :=
  ∀ (st st1 : WalkerState), (idsOfList ns).Nodup →
    (∀ x ∈ st.ignoreNodes, x ∉ removalIdsList cfg.ignoreParametersToFunctionRegex ns) →
    walkList cfg ns st = .ok st1 →
    st1.ignoreNodes = st.ignoreNodes ∧
    ∀ p ∈ st1.failures, p ∈ st.failures ∨ (p.1 ∈ idsOfList ns ∧ p.1 ∉ st.ignoreNodes)

/-! ### Theorems -/

/-- C10: visiting a class declaration without a name dereferences the missing
name node and throws, unconditionally, for every configuration, traversal
state and member list; the walk never continues into the class's subtree. -/
theorem c10_anonymous_class_throws (cfg : WalkerConfig) (st : WalkerState)
    (id : Nat) (children : NodeList) :
    walk cfg (.classDeclaration id none children) st =
      .error "TypeError: cannot read text of undefined" := rfl

/-- C8: for every node kind other than the four supported function-like
kinds, both the kind-label lookup and the threshold lookup throw instead of
returning a value. -/
theorem c8_unsupported_kind_throws (k : NodeKind) (cfg : WalkerConfig)
    (h : ¬ supportedKind k) :
    getFuncTypeText k = .error "Unsupported node kind" ∧
    getMaxLength cfg k = .error "Unsupported node kind" := by
  cases k <;> simp [supportedKind] at h <;> exact ⟨rfl, rfl⟩

/-- Witness for C8 at the class-declaration kind. -/
theorem c8_unsupported_kind_throws_witness :
    getFuncTypeText .classDeclaration = .error "Unsupported node kind" ∧
    getMaxLength cfgEmpty .classDeclaration = .error "Unsupported node kind" :=
  c8_unsupported_kind_throws .classDeclaration cfgEmpty (by decide)

/-- C4: for a node with a body, the computed length is the 0-indexed line of
the body's end minus the line of the body's start; when no line break lies
between the two offsets the length is 0. -/
theorem c4_body_length (text : List Char) (pos endPos : Nat) :
    calcBodyLength text (some ⟨pos, endPos⟩) =
      (lineOf text endPos : Int) - (lineOf text pos : Int) ∧
    (pos ≤ endPos →
      (((text.drop pos).take (endPos - pos)).all (fun c => !(c = '\n'))) = true →
      calcBodyLength text (some ⟨pos, endPos⟩) = 0) := by
  refine ⟨rfl, fun hle hnl => ?_⟩
  have hsplit : text.take endPos = text.take pos ++ (text.drop pos).take (endPos - pos) := by
    have h1 : endPos = pos + (endPos - pos) := by omega
    rw [h1, List.take_add, Nat.add_sub_cancel_left]
  have hnil : ((text.drop pos).take (endPos - pos)).filter (fun c => c = '\n') = [] := by
    rw [List.filter_eq_nil_iff]
    intro a ha
    have := List.all_eq_true.mp hnl a ha
    simpa using this
  have : lineOf text endPos = lineOf text pos := by
    unfold lineOf
    rw [hsplit, List.filter_append, hnil, List.append_nil]
  simp [calcBodyLength, this]

/-- Witness for C4: offsets 3 and 5 of the concrete text lie on the same
line, so the length is 0 and equals the line difference. -/
theorem c4_body_length_witness :
    calcBodyLength c4Text (some ⟨3, 5⟩) =
      (lineOf c4Text 5 : Int) - (lineOf c4Text 3 : Int) ∧
    calcBodyLength c4Text (some ⟨3, 5⟩) = 0 :=
  ⟨(c4_body_length c4Text 3 5).1,
   (c4_body_length c4Text 3 5).2 (by decide) (by decide)⟩

/-- For supported kinds, getMaxLength computes exactly the spec's threshold
resolution policy. -/
theorem getMaxLength_resolves (cfg : WalkerConfig) (k : NodeKind)
    (h : supportedKind k) :
    getMaxLength cfg k = .ok (resolvedThresholdSpec cfg k) := by
  have hjs : ∀ a b : Option Int,
      jsOr a b = match a with
        | some v => if v ≠ 0 then some v else b
        | none => b := by
    intro a b
    cases a with
    | none => rfl
    | some v => by_cases h0 : v = 0 <;> simp [jsOr, h0]
  rcases h with rfl | rfl | rfl | rfl <;>
    simp only [getMaxLength, resolvedThresholdSpec, hjs]

/-- C3: for every visited function-like node that is not suppressed, the
node is flagged (a failure is recorded by validate) iff its computed body
length is strictly greater than the threshold resolved by the spec's policy
(per-kind maximum when set and non-falsy, else the numeric fallback, else
undefined, under which no comparison succeeds); and the too-long test agrees
with that policy at every length. -/
theorem c3_flagged_iff_over_resolved_threshold (cfg : WalkerConfig) (k : NodeKind)
    (len : Int) (st st1 : WalkerState) (id : Nat) (name : Option String)
    (body : Option Span) (hk : supportedKind k) (hid : id ∉ st.ignoreNodes)
    (hval : validate cfg st id k name body = .ok st1) :
    (isFunctionTooLong cfg k len = .ok true ↔
      ∃ m, resolvedThresholdSpec cfg k = some m ∧ m < len) ∧
    (st1.failures ≠ st.failures ↔
      ∃ m, resolvedThresholdSpec cfg k = some m ∧
        m < calcBodyLength cfg.sourceText body) := by
  have hmax := getMaxLength_resolves cfg k hk
  constructor
  · rw [isFunctionTooLong, hmax]
    cases hr : resolvedThresholdSpec cfg k with
    | none => simp
    | some m => simp
  · have hc : st.ignoreNodes.contains id = false := by
      simp [List.elem_iff]
      exact hid
    cases hr : resolvedThresholdSpec cfg k with
    | none =>
      have hftl : isFunctionTooLong cfg k (calcBodyLength cfg.sourceText body) = .ok false := by
        rw [isFunctionTooLong, hmax, hr]
      rw [validate, hc] at hval
      simp only [Bool.false_eq_true, if_false] at hval
      rw [hftl] at hval
      simp at hval
      subst hval
      simp
    | some m =>
      have hftl : isFunctionTooLong cfg k (calcBodyLength cfg.sourceText body) =
          .ok (decide (m < calcBodyLength cfg.sourceText body)) := by
        rw [isFunctionTooLong, hmax, hr]
      rw [validate, hc] at hval
      simp only [Bool.false_eq_true, if_false] at hval
      rw [hftl] at hval
      by_cases hlt : m < calcBodyLength cfg.sourceText body
      · rw [decide_eq_true hlt] at hval
        cases hfmt : formatFailureText cfg st k name (calcBodyLength cfg.sourceText body) with
        | error e => rw [hfmt] at hval; exact absurd hval (by simp)
        | ok msg =>
          rw [hfmt] at hval
          simp at hval
          subst hval
          simp [hlt]
      · rw [decide_eq_false hlt] at hval
        simp at hval
        subst hval
        simp [hlt]

/-- Witness for C3: a method with a 5-line-break body under
method-body-length 3 is flagged, matching the spec's resolved threshold. -/
theorem c3_flagged_iff_over_resolved_threshold_witness :
    (isFunctionTooLong cfgMethod3 .methodDeclaration 5 = .ok true ↔
      ∃ m, resolvedThresholdSpec cfgMethod3 .methodDeclaration = some m ∧ m < 5) ∧
    ((⟨none, [],
        [(7, "Max method body length exceeded in method foo() - max: 3, actual: 5")]⟩ :
          WalkerState).failures ≠ initState.failures ↔
      ∃ m, resolvedThresholdSpec cfgMethod3 .methodDeclaration = some m ∧
        m < calcBodyLength cfgMethod3.sourceText (some ⟨0, 5⟩)) :=
  c3_flagged_iff_over_resolved_threshold cfgMethod3 .methodDeclaration 5 initState
    ⟨none, [], [(7, "Max method body length exceeded in method foo() - max: 3, actual: 5")]⟩
    7 (some "foo") (some ⟨0, 5⟩) (by decide) (by decide) rfl

/-- C6: every failure message has the fixed shape
Max kind-label body length exceeded place-clause - max: threshold, actual:
length, where the place clause is in-kind-label-name() for function and
method declarations, in-class-currentClassName for constructors, and empty
for arrow functions; the spec's concrete example produces exactly its quoted
message. -/
theorem c6_message_shape (cfg : WalkerConfig) (st : WalkerState) (len : Int)
    (fname mname : String) :
    formatFailureText cfg st .functionDeclaration (some fname) len =
      .ok ("Max function body length exceeded" ++ (" in function " ++ fname ++ "()") ++
        " - max: " ++ jsNumText (jsOr cfg.maxFuncBodyLength cfg.maxBodyLength) ++
        ", actual: " ++ toString len) ∧
    formatFailureText cfg st .methodDeclaration (some mname) len =
      .ok ("Max method body length exceeded" ++ (" in method " ++ mname ++ "()") ++
        " - max: " ++ jsNumText (jsOr cfg.maxMethodBodyLength cfg.maxBodyLength) ++
        ", actual: " ++ toString len) ∧
    formatFailureText cfg st .ctor none len =
      .ok ("Max constructor body length exceeded" ++ (" in class " ++ jsStrText st.currentClassName) ++
        " - max: " ++ jsNumText (jsOr cfg.maxCtorBodyLength cfg.maxBodyLength) ++
        ", actual: " ++ toString len) ∧
    formatFailureText cfg st .arrowFunction none len =
      .ok ("Max arrow function body length exceeded - max: " ++
        jsNumText (jsOr cfg.maxArrowBodyLength cfg.maxBodyLength) ++
        ", actual: " ++ toString len) ∧
    formatFailureText cfgMethod3 initState .methodDeclaration (some "foo") 5 =
      .ok "Max method body length exceeded in method foo() - max: 3, actual: 5" := by
  refine ⟨?_, ?_, ?_, ?_, rfl⟩ <;>
    · simp only [formatFailureText, formatPlaceText, getFuncTypeText, getMaxLength]
      simp only [reduceCtorEq, or_self, or_false, false_or, if_false, if_true, reduceIte]
      congr 1

/-- C5 counterexample: a function declaration with no body has computed
length 0, yet under the configured fallback maximum -1 the rule does record
a violation for it (0 > -1), so "never triggers a violation, for every
configuration of thresholds" fails. -/
theorem c5_no_body_counterexample :
    calcBodyLength srcNL none = 0 ∧
    runRule compileLit srcNL [.num (-1)] c5Tree =
      .ok [(21, "Max function body length exceeded in function f() - max: -1, actual: 0")] :=
  ⟨rfl, rfl⟩

/-- C5 amended: a function-like node with no body has computed length 0 and
never triggers a violation whenever the resolved threshold for its kind is
undefined or non-negative. -/
theorem c5_no_body_amended (cfg : WalkerConfig) (st : WalkerState) (id : Nat)
    (k : NodeKind) (name : Option String) (mx : Option Int)
    (hmx : getMaxLength cfg k = .ok mx)
    (hnonneg : mx.all (fun m => decide (0 ≤ m)) = true) :
    calcBodyLength cfg.sourceText none = 0 ∧
    validate cfg st id k name none = .ok st := by
  refine ⟨rfl, ?_⟩
  rw [validate]
  by_cases hc : st.ignoreNodes.contains id
  · rw [if_pos hc]
  · rw [if_neg hc]
    have hftl : isFunctionTooLong cfg k (calcBodyLength cfg.sourceText none) = .ok false := by
      rw [isFunctionTooLong, hmx]
      cases mx with
      | none => rfl
      | some m =>
        have h0 : (0 : Int) ≤ m := by simpa [Option.all] using hnonneg
        have : calcBodyLength cfg.sourceText none = 0 := rfl
        rw [this]
        simp
        omega
    rw [hftl]

/-- Witness for C5 amended: a bodyless function under fallback maximum 2 is
not flagged. -/
theorem c5_no_body_amended_witness :
    calcBodyLength cfgFallback2.sourceText none = 0 ∧
    validate cfgFallback2 initState 21 .functionDeclaration (some "f") none =
      .ok initState :=
  c5_no_body_amended cfgFallback2 initState 21 .functionDeclaration (some "f")
    (some 2) rfl (by decide)

/-- Every run of the option loop that still has a truthy, non-compiling
suppression pattern ahead of it ends in an error, whatever the accumulated
configuration. -/
theorem parseOptionsGo_error (compileRegex : String → Option (String → Bool))
    (f a m c : Option Int) (r : String) (hr : r ≠ "") (hc : compileRegex r = none) :
    ∀ (opts : List OptionEntry) (cfg : WalkerConfig),
      OptionEntry.obj f a m c (some r) ∈ opts →
      ∃ e, parseOptionsGo compileRegex cfg opts = .error e := by
  intro opts
  induction opts with
  | nil => intro cfg h; simp at h
  | cons o rest ih =>
    intro cfg h
    rw [parseOptionsGo]
    cases happ : applyOption compileRegex cfg o with
    | error e => exact ⟨e, rfl⟩
    | ok cfg1 =>
      rcases List.mem_cons.mp h with rfl | hmem
      · exfalso
        rw [applyOption] at happ
        simp only [hr, if_neg, hc] at happ
        exact absurd happ (by simp [hr])
      · exact ih cfg1 hmem

/-- C7: a configuration containing a suppression-pattern string that fails
to compile makes parseOptions itself throw, during walker construction, so
the whole analysis of every tree aborts with that same error and records no
violation. -/
theorem c7_bad_pattern_aborts (compileRegex : String → Option (String → Bool))
    (text : List Char) (opts : List OptionEntry) (tree : Node)
    (f a m c : Option Int) (r : String)
    (hmem : OptionEntry.obj f a m c (some r) ∈ opts)
    (hr : r ≠ "") (hc : compileRegex r = none) :
    ∃ e, parseOptions compileRegex text opts = .error e ∧
      runRule compileRegex text opts tree = .error e := by
  obtain ⟨e, he⟩ := parseOptionsGo_error compileRegex f a m c r hr hc opts
    ⟨none, none, none, none, none, none, text⟩ hmem
  refine ⟨e, he, ?_⟩
  rw [runRule, parseOptions, he]

/-- Witness for C7: the single malformed pattern "(" aborts the run of the
bodyless-function tree with a SyntaxError. -/
theorem c7_bad_pattern_aborts_witness :
    ∃ e, parseOptions compileNone srcNL [.obj none none none none (some "(")] = .error e ∧
      runRule compileNone srcNL [.obj none none none none (some "(")] c5Tree = .error e :=
  c7_bad_pattern_aborts compileNone srcNL [.obj none none none none (some "(")] c5Tree
    none none none none "(" (by decide) (by decide) rfl

/-- What one validate step can do to the state: it never touches
currentClassName or ignoreNodes, and it either leaves the failures alone or
appends exactly one failure, for the node's own identity (which was not
suppressed), whose message has the sound shape. -/
theorem validate_spec (cfg : WalkerConfig) (st : WalkerState) (id : Nat)
    (k : NodeKind) (name : Option String) (body : Option Span) (st1 : WalkerState)
    (h : validate cfg st id k name body = .ok st1) :
    st1.ignoreNodes = st.ignoreNodes ∧ st1.currentClassName = st.currentClassName ∧
    (st1.failures = st.failures ∨
      (id ∉ st.ignoreNodes ∧ ∃ msg, goodFailureMessage msg ∧
        st1.failures = st.failures ++ [(id, msg)])) := by
  rw [validate] at h
  by_cases hc : st.ignoreNodes.contains id
  · rw [if_pos hc] at h
    cases h
    exact ⟨rfl, rfl, .inl rfl⟩
  · rw [if_neg hc] at h
    have hid : id ∉ st.ignoreNodes := fun hmem => hc (List.elem_iff.mpr hmem)
    cases hftl : isFunctionTooLong cfg k (calcBodyLength cfg.sourceText body) with
    | error e => rw [hftl] at h; exact absurd h (by simp)
    | ok b =>
      rw [hftl] at h
      cases b with
      | false =>
        cases h
        exact ⟨rfl, rfl, .inl rfl⟩
      | true =>
        cases hfmt : formatFailureText cfg st k name (calcBodyLength cfg.sourceText body) with
        | error e => rw [hfmt] at h; exact absurd h (by simp)
        | ok msg =>
          rw [hfmt] at h
          cases h
          refine ⟨rfl, rfl, .inr ⟨hid, msg, ?_, rfl⟩⟩
          rw [isFunctionTooLong] at hftl
          cases hmax : getMaxLength cfg k with
          | error e => rw [hmax] at hftl; exact absurd hftl (by simp)
          | ok mx =>
            rw [hmax] at hftl
            cases mx with
            | none => exact absurd hftl (by simp)
            | some m =>
              have hlt : m < calcBodyLength cfg.sourceText body := by
                have := hftl
                simp at this
                exact this
              rw [formatFailureText, hmax] at hfmt
              cases hft : getFuncTypeText k with
              | error e => rw [hft] at hfmt; exact absurd hfmt (by simp)
              | ok funcTypeText =>
                rw [hft] at hfmt
                cases hpt : formatPlaceText st k name with
                | error e => rw [hpt] at hfmt; exact absurd hfmt (by simp)
                | ok placeText =>
                  rw [hpt] at hfmt
                  cases hfmt
                  exact ⟨funcTypeText, placeText, m,
                    calcBodyLength cfg.sourceText body, rfl, hlt⟩

mutual
/-- Every failure present after walking a node was either already present or
has the sound message shape. -/
theorem walk_failures_good (cfg : WalkerConfig) :
    ∀ (n : Node) (st st1 : WalkerState), walk cfg n st = .ok st1 →
      ∀ p ∈ st1.failures, p ∈ st.failures ∨ goodFailureMessage p.2
  | .callExpr i fn others args, st, st1, h => by
    simp only [walk] at h
    intro p hp
    cases hrx : cfg.ignoreParametersToFunctionRegex with
    | none =>
      simp only [hrx] at h
      cases h1 : walkList cfg others st with
      | error e => rw [h1] at h; exact absurd h (by simp)
      | ok stA =>
        rw [h1] at h
        rcases walkList_failures_good cfg args stA st1 h p hp with hin | hg
        · exact walkList_failures_good cfg others st stA h1 p hin
        · exact .inr hg
    | some regex =>
      simp only [hrx] at h
      by_cases hm : regex fn
      · rw [if_pos hm] at h
        cases h1 : walkList cfg others
            { st with ignoreNodes := st.ignoreNodes ++ argIdsOf args } with
        | error e => rw [h1] at h; exact absurd h (by simp)
        | ok stA =>
          simp only [h1] at h
          cases h2 : walkList cfg args stA with
          | error e => simp only [h2] at h; exact absurd h (by simp)
          | ok stB =>
            simp only [h2] at h
            cases h
            rcases walkList_failures_good cfg args stA stB h2 p hp with hin | hg
            · exact walkList_failures_good cfg others _ stA h1 p hin
            · exact .inr hg
      · rw [if_neg hm] at h
        cases h1 : walkList cfg others st with
        | error e => rw [h1] at h; exact absurd h (by simp)
        | ok stA =>
          rw [h1] at h
          rcases walkList_failures_good cfg args stA st1 h p hp with hin | hg
          · exact walkList_failures_good cfg others st stA h1 p hin
          · exact .inr hg
  | .arrowFunction i body children, st, st1, h => by
    simp only [walk] at h
    cases hv : validate cfg st i .arrowFunction none body with
    | error e => rw [hv] at h; exact absurd h (by simp)
    | ok stv =>
      rw [hv] at h
      intro p hp
      rcases walkList_failures_good cfg children stv st1 h p hp with hin | hg
      · rcases (validate_spec cfg st i .arrowFunction none body stv hv).2.2 with
          heq | ⟨_, msg, hgood, heq⟩
        · rw [heq] at hin; exact .inl hin
        · rw [heq] at hin
          rcases List.mem_append.mp hin with h1 | h2
          · exact .inl h1
          · have hpm : p = (i, msg) := by simpa using h2
            exact .inr (by rw [hpm]; exact hgood)
      · exact .inr hg
  | .methodDeclaration i name body children, st, st1, h => by
    simp only [walk] at h
    cases hv : validate cfg st i .methodDeclaration name body with
    | error e => rw [hv] at h; exact absurd h (by simp)
    | ok stv =>
      rw [hv] at h
      intro p hp
      rcases walkList_failures_good cfg children stv st1 h p hp with hin | hg
      · rcases (validate_spec cfg st i .methodDeclaration name body stv hv).2.2 with
          heq | ⟨_, msg, hgood, heq⟩
        · rw [heq] at hin; exact .inl hin
        · rw [heq] at hin
          rcases List.mem_append.mp hin with h1 | h2
          · exact .inl h1
          · have hpm : p = (i, msg) := by simpa using h2
            exact .inr (by rw [hpm]; exact hgood)
      · exact .inr hg
  | .functionDeclaration i name body children, st, st1, h => by
    simp only [walk] at h
    cases hv : validate cfg st i .functionDeclaration name body with
    | error e => rw [hv] at h; exact absurd h (by simp)
    | ok stv =>
      rw [hv] at h
      intro p hp
      rcases walkList_failures_good cfg children stv st1 h p hp with hin | hg
      · rcases (validate_spec cfg st i .functionDeclaration name body stv hv).2.2 with
          heq | ⟨_, msg, hgood, heq⟩
        · rw [heq] at hin; exact .inl hin
        · rw [heq] at hin
          rcases List.mem_append.mp hin with h1 | h2
          · exact .inl h1
          · have hpm : p = (i, msg) := by simpa using h2
            exact .inr (by rw [hpm]; exact hgood)
      · exact .inr hg
  | .constructorDeclaration i body children, st, st1, h => by
    simp only [walk] at h
    cases hv : validate cfg st i .ctor none body with
    | error e => rw [hv] at h; exact absurd h (by simp)
    | ok stv =>
      rw [hv] at h
      intro p hp
      rcases walkList_failures_good cfg children stv st1 h p hp with hin | hg
      · rcases (validate_spec cfg st i .ctor none body stv hv).2.2 with
          heq | ⟨_, msg, hgood, heq⟩
        · rw [heq] at hin; exact .inl hin
        · rw [heq] at hin
          rcases List.mem_append.mp hin with h1 | h2
          · exact .inl h1
          · have hpm : p = (i, msg) := by simpa using h2
            exact .inr (by rw [hpm]; exact hgood)
      · exact .inr hg
  | .classDeclaration i none children, st, st1, h => by
    simp only [walk] at h
    exact absurd h (by simp)
  | .classDeclaration i (some t) children, st, st1, h => by
    simp only [walk] at h
    intro p hp
    cases h1 : walkList cfg children { st with currentClassName := some t } with
    | error e => rw [h1] at h; exact absurd h (by simp)
    | ok stA =>
      rw [h1] at h
      cases h
      exact walkList_failures_good cfg children _ stA h1 p hp
  | .otherNode i children, st, st1, h => by
    simp only [walk] at h
    intro p hp
    exact walkList_failures_good cfg children st st1 h p hp

/-- List version of walk_failures_good. -/
theorem walkList_failures_good (cfg : WalkerConfig) :
    ∀ (ns : NodeList) (st st1 : WalkerState), walkList cfg ns st = .ok st1 →
      ∀ p ∈ st1.failures, p ∈ st.failures ∨ goodFailureMessage p.2
  | .nil, st, st1, h => by
    simp only [walkList] at h
    cases h
    intro p hp
    exact .inl hp
  | .cons hd tl, st, st1, h => by
    simp only [walkList] at h
    cases h1 : walk cfg hd st with
    | error e => rw [h1] at h; exact absurd h (by simp)
    | ok stA =>
      rw [h1] at h
      intro p hp
      rcases walkList_failures_good cfg tl stA st1 h p hp with hin | hg
      · exact walk_failures_good cfg hd st stA h1 p hin
      · exact .inr hg
end

/-- C9: every violation the analysis emits prints a defined number after
max: (never undefined) and prints after actual: a length strictly greater
than that printed maximum. -/
theorem c9_emitted_violation_sound (compileRegex : String → Option (String → Bool))
    (text : List Char) (opts : List OptionEntry) (tree : Node)
    (fs : List (Nat × String)) (p : Nat × String)
    (hrun : runRule compileRegex text opts tree = .ok fs) (hp : p ∈ fs) :
    goodFailureMessage p.2 := by
  rw [runRule] at hrun
  cases hpo : parseOptions compileRegex text opts with
  | error e => rw [hpo] at hrun; exact absurd hrun (by simp)
  | ok cfg =>
    simp only [hpo] at hrun
    cases hw : walk cfg tree initState with
    | error e => simp only [hw] at hrun; exact absurd hrun (by simp)
    | ok st =>
      simp only [hw] at hrun
      cases hrun
      rcases walk_failures_good cfg tree initState st hw p hp with hin | hg
      · exact absurd hin (by simp [initState])
      · exact hg

/-- Witness for C9 at the concrete suppressed-call run: its single emitted
message prints max 1 and actual 5. -/
theorem c9_emitted_violation_sound_witness :
    goodFailureMessage
      ((3, "Max function body length exceeded in function inner() - max: 1, actual: 5") :
        Nat × String).2 :=
  c9_emitted_violation_sound compileLit srcNL c1Options c1Tree
    [(3, "Max function body length exceeded in function inner() - max: 1, actual: 5")]
    (3, "Max function body length exceeded in function inner() - max: 1, actual: 5")
    rfl (by simp)

/-- C2 counterexample: in class Outer, a nested class declaration Inner
completes inside an earlier member, clearing the class-name context, so the
later too-long constructor of Outer reports "in class undefined" instead of
naming its innermost enclosing class Outer. -/
theorem c2_class_name_counterexample :
    runRule compileLit srcNL [.num 1] c2Tree =
      .ok [(13, "Max constructor body length exceeded in class undefined - max: 1, actual: 5")] ∧
    "Max constructor body length exceeded in class undefined - max: 1, actual: 5" ≠
      "Max constructor body length exceeded in class Outer - max: 1, actual: 5" :=
  ⟨rfl, by decide⟩

/-- C2 amended: a flagged constructor reports the walker's class-name
context as it stands at report time (printed as undefined when unset, in
particular for a constructor outside any class); visiting a class
declaration runs its subtree with the context set to that class's name and
then clears the context to unset, regardless of any enclosing class, which
is why a constructor whose enclosing class saw an earlier nested class
declaration complete also reports undefined. -/
theorem c2_class_name_amended (cfg : WalkerConfig) (st st2 stc stv : WalkerState)
    (id : Nat) (nm : String) (children : NodeList) (cid : Nat) (body : Option Span)
    (hwalk : walk cfg (.classDeclaration id (some nm) children) st = .ok st2)
    (hv : validate cfg stc cid .ctor none body = .ok stv)
    (hflag : stv.failures ≠ stc.failures) :
    (st2.currentClassName = none ∧
      ∃ c, walkList cfg children { st with currentClassName := some nm } =
        .ok { st2 with currentClassName := c }) ∧
    ∃ mx, getMaxLength cfg .ctor = .ok (some mx) ∧
      stv.failures = stc.failures ++
        [(cid, "Max constructor body length exceeded in class " ++
          jsStrText stc.currentClassName ++ " - max: " ++ toString mx ++
          ", actual: " ++ toString (calcBodyLength cfg.sourceText body))] := by
  constructor
  · simp only [walk] at hwalk
    cases h1 : walkList cfg children { st with currentClassName := some nm } with
    | error e => rw [h1] at hwalk; exact absurd hwalk (by simp)
    | ok stA =>
      simp only [h1] at hwalk
      cases hwalk
      exact ⟨rfl, stA.currentClassName, rfl⟩
  · rw [validate] at hv
    by_cases hc : stc.ignoreNodes.contains cid
    · rw [if_pos hc] at hv
      cases hv
      exact absurd rfl hflag
    · rw [if_neg hc] at hv
      cases hftl : isFunctionTooLong cfg .ctor (calcBodyLength cfg.sourceText body) with
      | error e => rw [hftl] at hv; exact absurd hv (by simp)
      | ok b =>
        rw [hftl] at hv
        cases b with
        | false =>
          cases hv
          exact absurd rfl hflag
        | true =>
          rw [isFunctionTooLong] at hftl
          cases hmx : getMaxLength cfg .ctor with
          | error e => rw [hmx] at hftl; exact absurd hftl (by simp)
          | ok mxo =>
            rw [hmx] at hftl
            cases mxo with
            | none => exact absurd hftl (by simp)
            | some mx =>
              refine ⟨mx, rfl, ?_⟩
              cases hfmt : formatFailureText cfg stc .ctor none
                  (calcBodyLength cfg.sourceText body) with
              | error e => rw [hfmt] at hv; exact absurd hv (by simp)
              | ok msg =>
                rw [hfmt] at hv
                cases hv
                rw [formatFailureText, hmx] at hfmt
                simp only [getFuncTypeText, formatPlaceText] at hfmt
                simp only [reduceCtorEq, or_self, if_false, if_true, reduceIte] at hfmt
                cases hfmt
                simp
                congr 1

/-- Witness for C2 amended: the class K run clears the context and flags the
constructor with "in class K"; the same constructor validated outside any
class is flagged with "in class undefined". -/
theorem c2_class_name_amended_witness :
    (((⟨none, [],
        [(31, "Max constructor body length exceeded in class K - max: 2, actual: 5")]⟩ :
          WalkerState).currentClassName = none) ∧
      ∃ c, walkList cfgFallback2
          (.cons (.constructorDeclaration 31 (some ⟨0, 5⟩) .nil) .nil)
          { initState with currentClassName := some "K" } =
        .ok { (⟨none, [],
          [(31, "Max constructor body length exceeded in class K - max: 2, actual: 5")]⟩ :
            WalkerState) with currentClassName := c }) ∧
    ∃ mx, getMaxLength cfgFallback2 .ctor = .ok (some mx) ∧
      (⟨none, [],
        [(31, "Max constructor body length exceeded in class undefined - max: 2, actual: 5")]⟩ :
          WalkerState).failures = initState.failures ++
        [(31, "Max constructor body length exceeded in class " ++
          jsStrText initState.currentClassName ++ " - max: " ++ toString mx ++
          ", actual: " ++ toString (calcBodyLength cfgFallback2.sourceText (some ⟨0, 5⟩)))] :=
  c2_class_name_amended cfgFallback2 initState
    ⟨none, [], [(31, "Max constructor body length exceeded in class K - max: 2, actual: 5")]⟩
    initState
    ⟨none, [], [(31, "Max constructor body length exceeded in class undefined - max: 2, actual: 5")]⟩
    30 "K" (.cons (.constructorDeclaration 31 (some ⟨0, 5⟩) .nil) .nil) 31 (some ⟨0, 5⟩)
    rfl rfl (by decide)

/-- Every node's own identity heads its subtree identity list. -/
theorem idsOf_eq_cons : ∀ (n : Node), idsOf n = n.nodeId :: childIds n := by
  intro n
  cases n <;> rfl

/-- A node's identity occurs in its subtree identity list. -/
theorem nodeId_mem_idsOf (n : Node) : n.nodeId ∈ idsOf n := by
  rw [idsOf_eq_cons]
  exact List.mem_cons_self _ _

/-- Argument identities are subtree identities. -/
theorem argIdsOf_subset : ∀ (ns : NodeList) (x : Nat),
    x ∈ argIdsOf ns → x ∈ idsOfList ns
  | .nil, x, h => by simp [argIdsOf] at h
  | .cons hd tl, x, h => by
    simp only [argIdsOf, List.mem_cons] at h
    simp only [idsOfList, List.mem_append]
    rcases h with rfl | h
    · exact .inl (nodeId_mem_idsOf hd)
    · exact .inr (argIdsOf_subset tl x h)

mutual
/-- Identities ever handed to removeAll while walking a node lie strictly
inside the node. -/
theorem removalIds_subset_child (m : Option (String → Bool)) :
    ∀ (n : Node) (x : Nat), x ∈ removalIds m n → x ∈ childIds n
  | .callExpr i fn others args, x, h => by
    simp only [removalIds, childIds, List.mem_append] at h ⊢
    rcases h with h | h | h
    · cases m with
      | none => simp at h
      | some regex =>
        change x ∈ (if regex fn = true then argIdsOf args else []) at h
        by_cases hm : regex fn
        · rw [if_pos hm] at h
          exact .inr (argIdsOf_subset args x h)
        · rw [if_neg hm] at h
          simp at h
    · exact .inl (removalIdsList_subset m others x h)
    · exact .inr (removalIdsList_subset m args x h)
  | .arrowFunction i b children, x, h => by
    simp only [removalIds, childIds] at h ⊢
    exact removalIdsList_subset m children x h
  | .methodDeclaration i nm b children, x, h => by
    simp only [removalIds, childIds] at h ⊢
    exact removalIdsList_subset m children x h
  | .functionDeclaration i nm b children, x, h => by
    simp only [removalIds, childIds] at h ⊢
    exact removalIdsList_subset m children x h
  | .constructorDeclaration i b children, x, h => by
    simp only [removalIds, childIds] at h ⊢
    exact removalIdsList_subset m children x h
  | .classDeclaration i nm children, x, h => by
    simp only [removalIds, childIds] at h ⊢
    exact removalIdsList_subset m children x h
  | .otherNode i children, x, h => by
    simp only [removalIds, childIds] at h ⊢
    exact removalIdsList_subset m children x h

/-- List version of removalIds_subset_child. -/
theorem removalIdsList_subset (m : Option (String → Bool)) :
    ∀ (ns : NodeList) (x : Nat), x ∈ removalIdsList m ns → x ∈ idsOfList ns
  | .nil, x, h => by simp [removalIdsList] at h
  | .cons hd tl, x, h => by
    simp only [removalIdsList, List.mem_append] at h
    simp only [idsOfList, List.mem_append]
    rcases h with h | h
    · rw [idsOf_eq_cons]
      exact .inl (List.mem_cons_of_mem _ (removalIds_subset_child m hd x h))
    · exact .inr (removalIdsList_subset m tl x h)
end

/-- In a duplicate-free subtree list, a top-level argument identity is never
among the identities the walker removes while inside that list. -/
theorem argIds_not_removal (m : Option (String → Bool)) :
    ∀ (ns : NodeList), (idsOfList ns).Nodup →
      ∀ x ∈ argIdsOf ns, x ∉ removalIdsList m ns
  | .nil => by
    intro _ x hx
    simp [argIdsOf] at hx
  | .cons hd tl => by
    intro hnd x hx hmem
    simp only [idsOfList] at hnd
    obtain ⟨h1, h2, hdisj⟩ := List.nodup_append.mp hnd
    simp only [argIdsOf, List.mem_cons] at hx
    simp only [removalIdsList, List.mem_append] at hmem
    rcases hx with rfl | hx
    · rcases hmem with hmem | hmem
      · have hc := removalIds_subset_child m hd _ hmem
        rw [idsOf_eq_cons] at h1
        exact (List.nodup_cons.mp h1).1 hc
      · exact hdisj (nodeId_mem_idsOf hd) (removalIdsList_subset m tl _ hmem)
    · rcases hmem with hmem | hmem
      · have hxh : x ∈ idsOf hd := by
          rw [idsOf_eq_cons]
          exact List.mem_cons_of_mem _ (removalIds_subset_child m hd x hmem)
        exact hdisj hxh (argIdsOf_subset tl x hx)
      · exact argIds_not_removal m tl h2 x hx hmem

/-- Removing exactly the identities that were appended restores the
suppression list, provided none of them was already present. -/
theorem removeAll_restore (l rm : List Nat) (h : ∀ i ∈ l, i ∉ rm) :
    removeAll (l ++ rm) rm = l := by
  unfold removeAll
  rw [List.filter_append]
  have h1 : l.filter (fun x => !(rm.contains x)) = l :=
    List.filter_eq_self.mpr (fun a ha => by simpa [List.elem_iff] using h a ha)
  have h2 : rm.filter (fun x => !(rm.contains x)) = [] :=
    List.filter_eq_nil_iff.mpr (fun a ha => by simp [List.elem_iff, ha])
  rw [h1, h2, List.append_nil]

/-- The suppression invariant across one validate step followed by the
children of a function-like node. -/
theorem funclike_step (cfg : WalkerConfig) (cs : NodeList) (i : Nat) (k : NodeKind)
    (nm : Option String) (b : Option Span) (ih : ListInv cfg cs)
    (st st1 stv : WalkerState) (hnd : (i :: idsOfList cs).Nodup)
    (hig : ∀ x ∈ st.ignoreNodes, x ∉ removalIdsList cfg.ignoreParametersToFunctionRegex cs)
    (hv : validate cfg st i k nm b = .ok stv)
    (h : walkList cfg cs stv = .ok st1) :
    st1.ignoreNodes = st.ignoreNodes ∧
    ∀ p ∈ st1.failures, p ∈ st.failures ∨ (p.1 ∈ i :: idsOfList cs ∧ p.1 ∉ st.ignoreNodes) := by
  obtain ⟨hvi, hvc, hvf⟩ := validate_spec cfg st i k nm b stv hv
  obtain ⟨hi1, hf1⟩ := ih stv st1 (List.nodup_cons.mp hnd).2
    (fun x hx => hig x (hvi ▸ hx)) h
  refine ⟨hi1.trans hvi, ?_⟩
  intro p hp
  rcases hf1 p hp with hin | ⟨hids, hnot⟩
  · rcases hvf with heq | ⟨hnid, msg, hgood, heq⟩
    · rw [heq] at hin
      exact .inl hin
    · rw [heq] at hin
      rcases List.mem_append.mp hin with h1 | h2
      · exact .inl h1
      · have hpm : p = (i, msg) := by simpa using h2
        refine .inr ⟨?_, ?_⟩
        · rw [hpm]
          exact List.mem_cons_self _ _
        · rw [hpm]
          exact hnid
  · exact .inr ⟨List.mem_cons_of_mem _ hids, fun hm2 => hnot (by rw [hvi]; exact hm2)⟩

/-- The suppression invariant across the two sequential child walks of a
call expression that does not suppress its arguments. -/
theorem call_plain_step (cfg : WalkerConfig) (others args : NodeList)
    (ihO : ListInv cfg others) (ihA : ListInv cfg args)
    (st stA st1 : WalkerState)
    (ndO : (idsOfList others).Nodup) (ndA : (idsOfList args).Nodup)
    (higO : ∀ x ∈ st.ignoreNodes, x ∉ removalIdsList cfg.ignoreParametersToFunctionRegex others)
    (higA : ∀ x ∈ st.ignoreNodes, x ∉ removalIdsList cfg.ignoreParametersToFunctionRegex args)
    (h1 : walkList cfg others st = .ok stA) (h2 : walkList cfg args stA = .ok st1) :
    st1.ignoreNodes = st.ignoreNodes ∧
    ∀ p ∈ st1.failures, p ∈ st.failures ∨
      (p.1 ∈ idsOfList others ++ idsOfList args ∧ p.1 ∉ st.ignoreNodes) := by
  obtain ⟨e1, f1⟩ := ihO st stA ndO higO h1
  obtain ⟨e2, f2⟩ := ihA stA st1 ndA (fun x hx => higA x (e1 ▸ hx)) h2
  refine ⟨e2.trans e1, ?_⟩
  intro p hp
  rcases f2 p hp with hin | ⟨hids, hnot⟩
  · rcases f1 p hin with hin2 | ⟨hids2, hnot2⟩
    · exact .inl hin2
    · exact .inr ⟨List.mem_append.mpr (.inl hids2), hnot2⟩
  · exact .inr ⟨List.mem_append.mpr (.inr hids),
      fun hm2 => hnot (by rw [e1]; exact hm2)⟩

mutual
/-- The suppression invariant holds for walking every node. -/
theorem walk_ignore_spec (cfg : WalkerConfig) : ∀ (n : Node), NodeInv cfg n
  | .callExpr i fn others args => by
    intro st st1 hnd hig h
    simp only [walk] at h
    simp only [idsOf] at hnd
    obtain ⟨ndO, ndA, disjOA⟩ := List.nodup_append.mp (List.nodup_cons.mp hnd).2
    have higO : ∀ x ∈ st.ignoreNodes,
        x ∉ removalIdsList cfg.ignoreParametersToFunctionRegex others := by
      intro x hx hmem
      refine hig x hx ?_
      simp only [removalIds]
      exact List.mem_append.mpr (.inr (List.mem_append.mpr (.inl hmem)))
    have higA : ∀ x ∈ st.ignoreNodes,
        x ∉ removalIdsList cfg.ignoreParametersToFunctionRegex args := by
      intro x hx hmem
      refine hig x hx ?_
      simp only [removalIds]
      exact List.mem_append.mpr (.inr (List.mem_append.mpr (.inr hmem)))
    cases hrx : cfg.ignoreParametersToFunctionRegex with
    | none =>
      simp only [hrx] at h
      cases h1 : walkList cfg others st with
      | error e => rw [h1] at h; exact absurd h (by simp)
      | ok stA =>
        simp only [h1] at h
        have hh := call_plain_step cfg others args
          (walkList_ignore_spec cfg others) (walkList_ignore_spec cfg args)
          st stA st1 ndO ndA higO higA h1 h
        refine ⟨hh.1, ?_⟩
        intro p hp
        rcases hh.2 p hp with hin | ⟨hids, hnot⟩
        · exact .inl hin
        · exact .inr ⟨by simp only [idsOf]; exact List.mem_cons_of_mem _ hids, hnot⟩
    | some regex =>
      simp only [hrx] at h
      by_cases hm : regex fn
      · rw [if_pos hm] at h
        have higArg : ∀ x ∈ st.ignoreNodes, x ∉ argIdsOf args := by
          intro x hx hmem
          refine hig x hx ?_
          rw [hrx]
          simp only [removalIds]
          refine List.mem_append.mpr (.inl ?_)
          change x ∈ (if regex fn = true then argIdsOf args else [])
          rw [if_pos hm]
          exact hmem
        cases h1 : walkList cfg others
            { st with ignoreNodes := st.ignoreNodes ++ argIdsOf args } with
        | error e => rw [h1] at h; exact absurd h (by simp)
        | ok stA =>
          simp only [h1] at h
          cases h2 : walkList cfg args stA with
          | error e => simp only [h2] at h; exact absurd h (by simp)
          | ok stB =>
            simp only [h2] at h
            cases h
            have higO2 : ∀ x ∈ st.ignoreNodes ++ argIdsOf args,
                x ∉ removalIdsList cfg.ignoreParametersToFunctionRegex others := by
              intro x hx hmem
              rcases List.mem_append.mp hx with hx1 | hx2
              · exact higO x hx1 hmem
              · exact disjOA (removalIdsList_subset _ others x hmem)
                  (argIdsOf_subset args x hx2)
            obtain ⟨e1, f1⟩ := walkList_ignore_spec cfg others
              { st with ignoreNodes := st.ignoreNodes ++ argIdsOf args } stA ndO higO2 h1
            have higA2 : ∀ x ∈ stA.ignoreNodes,
                x ∉ removalIdsList cfg.ignoreParametersToFunctionRegex args := by
              intro x hx hmem
              rw [e1] at hx
              rcases List.mem_append.mp hx with hx1 | hx2
              · exact higA x hx1 hmem
              · exact argIds_not_removal cfg.ignoreParametersToFunctionRegex args ndA x hx2 hmem
            obtain ⟨e2, f2⟩ := walkList_ignore_spec cfg args stA stB ndA higA2 h2
            constructor
            · show removeAll stB.ignoreNodes (argIdsOf args) = st.ignoreNodes
              rw [e2, e1]
              exact removeAll_restore st.ignoreNodes (argIdsOf args) higArg
            · intro p hp
              rcases f2 p hp with hin | ⟨hids, hnot⟩
              · rcases f1 p hin with hin2 | ⟨hids2, hnot2⟩
                · exact .inl hin2
                · refine .inr ⟨?_, ?_⟩
                  · simp only [idsOf]
                    exact List.mem_cons_of_mem _ (List.mem_append.mpr (.inl hids2))
                  · exact fun hm2 => hnot2 (List.mem_append.mpr (.inl hm2))
              · refine .inr ⟨?_, ?_⟩
                · simp only [idsOf]
                  exact List.mem_cons_of_mem _ (List.mem_append.mpr (.inr hids))
                · intro hm2
                  refine hnot ?_
                  rw [e1]
                  exact List.mem_append.mpr (.inl hm2)
      · rw [if_neg hm] at h
        cases h1 : walkList cfg others st with
        | error e => rw [h1] at h; exact absurd h (by simp)
        | ok stA =>
          simp only [h1] at h
          have hh := call_plain_step cfg others args
            (walkList_ignore_spec cfg others) (walkList_ignore_spec cfg args)
            st stA st1 ndO ndA higO higA h1 h
          refine ⟨hh.1, ?_⟩
          intro p hp
          rcases hh.2 p hp with hin | ⟨hids, hnot⟩
          · exact .inl hin
          · exact .inr ⟨by simp only [idsOf]; exact List.mem_cons_of_mem _ hids, hnot⟩
  | .arrowFunction i b children => by
    intro st st1 hnd hig h
    simp only [walk] at h
    cases hv : validate cfg st i .arrowFunction none b with
    | error e => rw [hv] at h; exact absurd h (by simp)
    | ok stv =>
      simp only [hv] at h
      have hh := funclike_step cfg children i .arrowFunction none b
        (walkList_ignore_spec cfg children) st st1 stv (by simpa [idsOf] using hnd) hig hv h
      exact ⟨hh.1, fun p hp => by
        rcases hh.2 p hp with hin | ⟨hids, hnot⟩
        · exact .inl hin
        · exact .inr ⟨by simpa [idsOf] using hids, hnot⟩⟩
  | .methodDeclaration i nm b children => by
    intro st st1 hnd hig h
    simp only [walk] at h
    cases hv : validate cfg st i .methodDeclaration nm b with
    | error e => rw [hv] at h; exact absurd h (by simp)
    | ok stv =>
      simp only [hv] at h
      have hh := funclike_step cfg children i .methodDeclaration nm b
        (walkList_ignore_spec cfg children) st st1 stv (by simpa [idsOf] using hnd) hig hv h
      exact ⟨hh.1, fun p hp => by
        rcases hh.2 p hp with hin | ⟨hids, hnot⟩
        · exact .inl hin
        · exact .inr ⟨by simpa [idsOf] using hids, hnot⟩⟩
  | .functionDeclaration i nm b children => by
    intro st st1 hnd hig h
    simp only [walk] at h
    cases hv : validate cfg st i .functionDeclaration nm b with
    | error e => rw [hv] at h; exact absurd h (by simp)
    | ok stv =>
      simp only [hv] at h
      have hh := funclike_step cfg children i .functionDeclaration nm b
        (walkList_ignore_spec cfg children) st st1 stv (by simpa [idsOf] using hnd) hig hv h
      exact ⟨hh.1, fun p hp => by
        rcases hh.2 p hp with hin | ⟨hids, hnot⟩
        · exact .inl hin
        · exact .inr ⟨by simpa [idsOf] using hids, hnot⟩⟩
  | .constructorDeclaration i b children => by
    intro st st1 hnd hig h
    simp only [walk] at h
    cases hv : validate cfg st i .ctor none b with
    | error e => rw [hv] at h; exact absurd h (by simp)
    | ok stv =>
      simp only [hv] at h
      have hh := funclike_step cfg children i .ctor none b
        (walkList_ignore_spec cfg children) st st1 stv (by simpa [idsOf] using hnd) hig hv h
      exact ⟨hh.1, fun p hp => by
        rcases hh.2 p hp with hin | ⟨hids, hnot⟩
        · exact .inl hin
        · exact .inr ⟨by simpa [idsOf] using hids, hnot⟩⟩
  | .classDeclaration i none children => by
    intro st st1 hnd hig h
    simp only [walk] at h
    exact absurd h (by simp)
  | .classDeclaration i (some t) children => by
    intro st st1 hnd hig h
    simp only [walk] at h
    cases h1 : walkList cfg children { st with currentClassName := some t } with
    | error e => rw [h1] at h; exact absurd h (by simp)
    | ok stA =>
      simp only [h1] at h
      cases h
      obtain ⟨e1, f1⟩ := walkList_ignore_spec cfg children
        { st with currentClassName := some t } stA
        (by simp only [idsOf, List.nodup_cons] at hnd; exact hnd.2) hig h1
      refine ⟨e1, ?_⟩
      intro p hp
      rcases f1 p hp with hin | ⟨hids, hnot⟩
      · exact .inl hin
      · exact .inr ⟨by simp only [idsOf, List.mem_cons]; exact .inr hids, hnot⟩
  | .otherNode i children => by
    intro st st1 hnd hig h
    simp only [walk] at h
    obtain ⟨e1, f1⟩ := walkList_ignore_spec cfg children st st1
      (by simp only [idsOf, List.nodup_cons] at hnd; exact hnd.2) hig h
    refine ⟨e1, ?_⟩
    intro p hp
    rcases f1 p hp with hin | ⟨hids, hnot⟩
    · exact .inl hin
    · exact .inr ⟨by simp only [idsOf, List.mem_cons]; exact .inr hids, hnot⟩

/-- The suppression invariant holds for walking every node list. -/
theorem walkList_ignore_spec (cfg : WalkerConfig) : ∀ (ns : NodeList), ListInv cfg ns
  | .nil => by
    intro st st1 hnd hig h
    simp only [walkList] at h
    cases h
    exact ⟨rfl, fun p hp => .inl hp⟩
  | .cons hd tl => by
    intro st st1 hnd hig h
    simp only [walkList] at h
    simp only [idsOfList] at hnd
    cases h1 : walk cfg hd st with
    | error e => rw [h1] at h; exact absurd h (by simp)
    | ok stA =>
      simp only [h1] at h
      have higH : ∀ x ∈ st.ignoreNodes,
          x ∉ removalIds cfg.ignoreParametersToFunctionRegex hd := by
        intro x hx hmem
        refine hig x hx ?_
        simp only [removalIdsList]
        exact List.mem_append.mpr (.inl hmem)
      have higT : ∀ x ∈ st.ignoreNodes,
          x ∉ removalIdsList cfg.ignoreParametersToFunctionRegex tl := by
        intro x hx hmem
        refine hig x hx ?_
        simp only [removalIdsList]
        exact List.mem_append.mpr (.inr hmem)
      obtain ⟨e1, f1⟩ := walk_ignore_spec cfg hd st stA
        (List.nodup_append.mp hnd).1 higH h1
      obtain ⟨e2, f2⟩ := walkList_ignore_spec cfg tl stA st1
        (List.nodup_append.mp hnd).2.1 (fun x hx => higT x (e1 ▸ hx)) h
      refine ⟨e2.trans e1, ?_⟩
      intro p hp
      rcases f2 p hp with hin | ⟨hids, hnot⟩
      · rcases f1 p hin with hin2 | ⟨hids2, hnot2⟩
        · exact .inl hin2
        · exact .inr ⟨by simp only [idsOfList, List.mem_append]; exact .inl hids2, hnot2⟩
      · exact .inr ⟨by simp only [idsOfList, List.mem_append]; exact .inr hids,
          fun hm2 => hnot (by rw [e1]; exact hm2)⟩
end

/-- C1 counterexample: under the pattern "describe" and fallback maximum 1,
the call describe(arrow) exempts only the argument node itself; the function
declaration with identity 3, nested inside the argument's subtree, is still
flagged during the traversal of the call, so the argument's full subtree is
not exempt. -/
theorem c1_suppression_counterexample :
    runRule compileLit srcNL c1Options c1Tree =
      .ok [(3, "Max function body length exceeded in function inner() - max: 1, actual: 5")] ∧
    3 ∈ idsOf (.arrowFunction 2 (some ⟨0, 5⟩)
      (.cons (.functionDeclaration 3 (some "inner") (some ⟨0, 5⟩) .nil) .nil)) ∧
    3 ∉ argIdsOf (.cons (.arrowFunction 2 (some ⟨0, 5⟩)
      (.cons (.functionDeclaration 3 (some "inner") (some ⟨0, 5⟩) .nil) .nil)) .nil) :=
  ⟨rfl, by decide, by decide⟩

/-- C1 amended: for a call expression whose callee name matches the
configured pattern, the top-level argument nodes themselves are exempt while
the call's subtree is traversed (no recorded failure carries an argument's
identity), and once the call's subtree finishes the suppression list is
restored exactly, so those nodes are no longer exempt for any sibling or
later call; nodes nested strictly inside an argument are not exempted. -/
theorem c1_suppression_amended (cfg : WalkerConfig) (regex : String → Bool)
    (i : Nat) (fn : String) (others args : NodeList) (st st1 : WalkerState)
    (hrx : cfg.ignoreParametersToFunctionRegex = some regex)
    (hm : regex fn = true)
    (hnd : (idsOf (.callExpr i fn others args)).Nodup)
    (hig : ∀ x ∈ st.ignoreNodes,
      x ∉ removalIds cfg.ignoreParametersToFunctionRegex (.callExpr i fn others args))
    (h : walk cfg (.callExpr i fn others args) st = .ok st1) :
    st1.ignoreNodes = st.ignoreNodes ∧
    ∀ p ∈ st1.failures, p ∉ st.failures → p.1 ∉ argIdsOf args := by
  simp only [walk, hrx] at h
  rw [if_pos hm] at h
  simp only [idsOf] at hnd
  obtain ⟨ndO, ndA, disjOA⟩ := List.nodup_append.mp (List.nodup_cons.mp hnd).2
  have higO : ∀ x ∈ st.ignoreNodes,
      x ∉ removalIdsList cfg.ignoreParametersToFunctionRegex others := by
    intro x hx hmem
    refine hig x hx ?_
    simp only [removalIds]
    exact List.mem_append.mpr (.inr (List.mem_append.mpr (.inl hmem)))
  have higA : ∀ x ∈ st.ignoreNodes,
      x ∉ removalIdsList cfg.ignoreParametersToFunctionRegex args := by
    intro x hx hmem
    refine hig x hx ?_
    simp only [removalIds]
    exact List.mem_append.mpr (.inr (List.mem_append.mpr (.inr hmem)))
  have higArg : ∀ x ∈ st.ignoreNodes, x ∉ argIdsOf args := by
    intro x hx hmem
    refine hig x hx ?_
    rw [hrx]
    simp only [removalIds]
    refine List.mem_append.mpr (.inl ?_)
    change x ∈ (if regex fn = true then argIdsOf args else [])
    rw [if_pos hm]
    exact hmem
  cases h1 : walkList cfg others
      { st with ignoreNodes := st.ignoreNodes ++ argIdsOf args } with
  | error e => rw [h1] at h; exact absurd h (by simp)
  | ok stA =>
    simp only [h1] at h
    cases h2 : walkList cfg args stA with
    | error e => simp only [h2] at h; exact absurd h (by simp)
    | ok stB =>
      simp only [h2] at h
      cases h
      have higO2 : ∀ x ∈ st.ignoreNodes ++ argIdsOf args,
          x ∉ removalIdsList cfg.ignoreParametersToFunctionRegex others := by
        intro x hx hmem
        rcases List.mem_append.mp hx with hx1 | hx2
        · exact higO x hx1 hmem
        · exact disjOA (removalIdsList_subset _ others x hmem) (argIdsOf_subset args x hx2)
      obtain ⟨e1, f1⟩ := walkList_ignore_spec cfg others
        { st with ignoreNodes := st.ignoreNodes ++ argIdsOf args } stA ndO higO2 h1
      have higA2 : ∀ x ∈ stA.ignoreNodes,
          x ∉ removalIdsList cfg.ignoreParametersToFunctionRegex args := by
        intro x hx hmem
        rw [e1] at hx
        rcases List.mem_append.mp hx with hx1 | hx2
        · exact higA x hx1 hmem
        · exact argIds_not_removal cfg.ignoreParametersToFunctionRegex args ndA x hx2 hmem
      obtain ⟨e2, f2⟩ := walkList_ignore_spec cfg args stA stB ndA higA2 h2
      constructor
      · show removeAll stB.ignoreNodes (argIdsOf args) = st.ignoreNodes
        rw [e2, e1]
        exact removeAll_restore st.ignoreNodes (argIdsOf args) higArg
      · intro p hp hnotin
        rcases f2 p hp with hin | ⟨hids, hnot⟩
        · rcases f1 p hin with hin2 | ⟨hids2, hnot2⟩
          · exact absurd hin2 hnotin
          · exact fun harg => hnot2 (List.mem_append.mpr (.inr harg))
        · intro harg
          refine hnot ?_
          rw [e1]
          exact List.mem_append.mpr (.inr harg)

/-- Witness for C1 amended at the concrete describe call: the suppression
list is restored to empty and the single recorded failure is not for the
argument node. -/
theorem c1_suppression_amended_witness :
    ((⟨none, [],
      [(3, "Max function body length exceeded in function inner() - max: 1, actual: 5")]⟩ :
        WalkerState).ignoreNodes = initState.ignoreNodes) ∧
    ∀ p ∈ (⟨none, [],
      [(3, "Max function body length exceeded in function inner() - max: 1, actual: 5")]⟩ :
        WalkerState).failures, p ∉ initState.failures →
      p.1 ∉ argIdsOf (.cons (.arrowFunction 2 (some ⟨0, 5⟩)
        (.cons (.functionDeclaration 3 (some "inner") (some ⟨0, 5⟩) .nil) .nil)) .nil) :=
  c1_suppression_amended cfgC1 describeMatcher 1 "describe" .nil
    (.cons (.arrowFunction 2 (some ⟨0, 5⟩)
      (.cons (.functionDeclaration 3 (some "inner") (some ⟨0, 5⟩) .nil) .nil)) .nil)
    initState
    ⟨none, [], [(3, "Max function body length exceeded in function inner() - max: 1, actual: 5")]⟩
    rfl rfl (by decide) (by simp [initState]) rfl

end MaxFuncBodyLengthRule
